import Mathlib

/-!
Shallow embedding of the core of `termimage-editor` (`src/lib.rs`): an
indexed-color 2D buffer, a cursor with a mode state machine, and CSV export.

Modelling conventions:
* `usize` values are modelled as `Nat`.  Where an operation of the source
  aborts instead of returning a value — a `usize` subtraction that
  underflows (`new_width - old_width` during a shrink) or an out-of-bounds
  array index (`self.data.0[index]`, `colors.0[idx]`) — the model returns
  `none`.  Universally quantified theorems that depend on index arithmetic
  staying below `2^64` carry that bound as an explicit hypothesis.
* `anyhow::Result` values are modelled as `Except EditorError`, with one
  constructor per distinct error the source can produce.
-/

namespace TermImage

/-- Color is a single byte palette index (`pub struct Color(pub u8)`). -/
structure Color where
  val : Fin 256
deriving DecidableEq

/-- Background color index, `Color::BG_COLOR = Color(0)`. -/
def Color.BG_COLOR : Color := ⟨0⟩

/-- Palette capacity bound, `Color::MAX = u8::MAX = 255`. -/
def Color.MAX : Nat := 255

/-- Position is a pair of `usize` coordinates. -/
structure Position where
  x : Nat
  y : Nat
deriving DecidableEq

/-- Buffer owns its extent `max_position` and a row-major list of colors. -/
structure Buffer where
  max_position : Position
  data : List Color
deriving DecidableEq

/-- Colors palette: `pub struct Colors([String; Color::MAX as usize])`,
an array of exactly 255 names indexed by palette index. -/
structure Colors where
  names : List String
  hlen : names.length = Color.MAX

/-- Mode of the cursor, a sum type with a payload on `Draw`. -/
inductive Mode where
  | Normal
  | Selection
  | Draw (color : Color) (brush : Option Char)
  | Visual
deriving DecidableEq

/-- Errors surfaced through `anyhow::Result` by the core:
the out-of-range anyhow message of `set_color`/`get_color` (carrying the
offending coordinates) and `ModeError::NotDrawModeError` (carrying the
current mode). -/
inductive EditorError where
  | outOfRange (x y : Nat)
  | notDrawMode (m : Mode)
deriving DecidableEq

/-- Cursor owns a position and a mode. -/
structure Cursor where
  position : Position
  mode : Mode
deriving DecidableEq

namespace Buffer

/-- Row-major index, `position.y * self.max_position.x + position.x`.
The source comments that this does not check the range. -/
def get_index (b : Buffer) (position : Position) : Nat :=
  position.y * b.max_position.x + position.x

/-- Bounds-checked write: `self.data.0.get_mut(index)` succeeds exactly when
`index < len`, otherwise the anyhow out-of-range error carrying `(x, y)` is
returned. -/
def set_color (b : Buffer) (position : Position) (color : Color) :
    Except EditorError Buffer :=
  let index := b.get_index position
  if index < b.data.length then
    .ok { b with data := b.data.set index color }
  else
    .error (.outOfRange position.x position.y)

/-- Bounds-checked read: `self.data.0.get(index).copied()` succeeds exactly
when `index < len`, otherwise the same out-of-range error is returned. -/
def get_color (b : Buffer) (position : Position) : Except EditorError Color :=
  match b.data[b.get_index position]? with
  | some color => .ok color
  | none => .error (.outOfRange position.x position.y)

/-- One row of the copy loops of the resize operations: the cells
`data[y * old_width + x]` for `x < old_width`.  The source indexes the
vector directly; callers guard the case where such a read would be out of
bounds, so the `getD` default is never consulted there. -/
def copy_row (b : Buffer) (y : Nat) : List Color :=
  (List.range b.max_position.x).map (fun x =>
    b.data.getD (y * b.max_position.x + x) Color.BG_COLOR)

/-- Resize in width (`new_width_buffer`).  Per row, the first `old_width`
cells are copied and `new_width - old_width` background cells are pushed.
That subtraction is a `usize` subtraction evaluated once per row, so with a
positive height and `new_width < old_width` it underflows and the call
aborts (`none`); with height 0 the loop body never runs.  A copy-loop read
past the end of `data` also aborts, which happens exactly when
`data.length < old_width * old_height`. -/
def new_width_buffer (b : Buffer) (new_width : Nat) : Option Buffer :=
  if 0 < b.max_position.y ∧ new_width < b.max_position.x then none
  else if b.data.length < b.max_position.x * b.max_position.y then none
  else some
    { max_position := ⟨new_width, b.max_position.y⟩
      data := ((List.range b.max_position.y).map (fun y =>
        b.copy_row y ++
          List.replicate (new_width - b.max_position.x) Color.BG_COLOR)).flatten }

/-- Resize in height (`new_height_buffer`).  All existing cells are copied
in order, then `new_height - old_height` rows of `old_width` background
cells are appended.  That subtraction is evaluated unconditionally, so
`new_height < old_height` always aborts; an out-of-range copy read aborts
as in `new_width_buffer`. -/
def new_height_buffer (b : Buffer) (new_height : Nat) : Option Buffer :=
  if new_height < b.max_position.y then none
  else if b.data.length < b.max_position.x * b.max_position.y then none
  else some
    { max_position := ⟨b.max_position.x, new_height⟩
      data := ((List.range b.max_position.y).map (fun y => b.copy_row y)).flatten
        ++ List.replicate
            ((new_height - b.max_position.y) * b.max_position.x) Color.BG_COLOR }

/-- Resize in both dimensions: width resize then height resize, in that
order, exactly as `new_size_buffer` chains them in the source. -/
def new_size_buffer (b : Buffer) (new_width new_height : Nat) : Option Buffer :=
  (b.new_width_buffer new_width).bind (fun b2 => b2.new_height_buffer new_height)

/-- Documented invariant of the buffer:
`data.length == max_position.x * max_position.y`. -/
def WF (b : Buffer) : Prop :=
  b.data.length = b.max_position.x * b.max_position.y

instance (b : Buffer) : Decidable b.WF := by
  unfold WF; infer_instance

/-- Buffer produced by `Buffer::default()`: zero extent, empty data. -/
def default : Buffer := ⟨⟨0, 0⟩, []⟩

end Buffer

/-- Field quoting of the `csv` crate (default `QuoteStyle::Necessary`): a
field is quoted when it contains a comma, a quote or a line break. -/
def needs_quote (s : String) : Bool :=
  s.data.any (fun ch => ch == ',' || ch == '"' || ch == '\n' || ch == '\r')

/-- Character-level quote doubling used inside a quoted field. -/
def escape_quotes : List Char → List Char
  | [] => []
  | c :: rest =>
      if c == '"' then c :: c :: escape_quotes rest
      else c :: escape_quotes rest

/-- Quoted form of a field: quotes doubled, the field wrapped in quotes. -/
def quote_field (s : String) : String :=
  if needs_quote s then "\"" ++ (⟨escape_quotes s.data⟩ : String) ++ "\""
  else s

/-- One CSV record as written by `csv::Writer::write_record`: fields joined
by commas and a terminating newline. -/
def write_record (fields : List String) : String :=
  String.intercalate "," (fields.map quote_field) ++ "\n"

namespace Buffer

/-- CSV export (`to_csv`): for `y` then `x` in row-major order the source
reads `data[y * w + x]` and `colors.0[color as usize]` by direct indexing —
either read being out of bounds aborts the program (`none`) — and writes
the record `[x.to_string(), y.to_string(), color_name]`. -/
def to_csv (b : Buffer) (colors : Colors) : Option String :=
  ((List.range b.max_position.y).mapM (fun y =>
    (List.range b.max_position.x).mapM (fun x =>
      (b.data[y * b.max_position.x + x]?).bind (fun color =>
        (colors.names[color.val.val]?).map (fun color_name =>
          write_record [toString x, toString y, color_name]))))).map
    (fun rows => String.join (rows.map String.join))

end Buffer

namespace Cursor

/-- Accessor `current_position`. -/
def current_position (c : Cursor) : Position := c.position

/-- Accessor `current_mode`. -/
def current_mode (c : Cursor) : Mode := c.mode

/-- Pure transition `new_position_cursor`: replaces position, keeps mode. -/
def new_position_cursor (c : Cursor) (new_position : Position) : Cursor :=
  { position := new_position, mode := c.mode }

/-- Pure transition `new_mode_cursor`: replaces mode, keeps position. -/
def new_mode_cursor (c : Cursor) (new_mode : Mode) : Cursor :=
  { position := c.position, mode := new_mode }

/-- Mutating operation `draw`: in `Draw { color, .. }` mode it writes
`color` at the cursor position through `set_color` (whose failure
propagates); in any other mode it fails with
`ModeError::NotDrawModeError(mode)`. -/
def draw (c : Cursor) (buffer : Buffer) : Except EditorError Buffer :=
  match c.mode with
  | Mode.Draw color _ => buffer.set_color c.position color
  | m => .error (.notDrawMode m)

/-- Cursor produced by `Cursor::default()`. -/
def default : Cursor := ⟨⟨0, 0⟩, Mode.Normal⟩

end Cursor

instance exceptDecidableEq {ε α : Type} [DecidableEq ε] [DecidableEq α] :
    DecidableEq (Except ε α) := fun x y =>
  match x, y with
  | .ok a, .ok b =>
      if h : a = b then .isTrue (by rw [h]) else .isFalse (by simp [h])
  | .error a, .error b =>
      if h : a = b then .isTrue (by rw [h]) else .isFalse (by simp [h])
  | .ok _, .error _ => .isFalse (by simp)
  | .error _, .ok _ => .isFalse (by simp)

/-! General lemmas on row-major storage: flattening a list of rows that all
have the same width. -/

/-- Length of the flattening of rows of a common width. -/
lemma flatten_length_const {α : Type} (rows : List (List α)) (W : Nat)
    (h : ∀ r ∈ rows, r.length = W) :
    rows.flatten.length = rows.length * W := by
  induction rows with
  | nil => simp
  | cons r rs ih =>
    simp only [List.flatten_cons, List.length_append, List.length_cons]
    rw [h r (by simp), ih (fun r hr => h r (by simp [hr])), Nat.succ_mul]
    omega

/-- Row-major access into the flattening of rows of a common width. -/
lemma flatten_getElem?_const {α : Type} (rows : List (List α)) (W x y : Nat)
    (h : ∀ r ∈ rows, r.length = W) (hx : x < W) :
    rows.flatten[y * W + x]? = rows[y]?.bind (fun r => r[x]?) := by
  induction rows generalizing y with
  | nil => simp
  | cons r rs ih =>
    have hr : r.length = W := h r (by simp)
    cases y with
    | zero =>
      simp only [Nat.zero_mul, Nat.zero_add, List.flatten_cons]
      rw [List.getElem?_append_left (by omega)]
      simp
    | succ y =>
      simp only [List.flatten_cons]
      have hge : r.length ≤ (y + 1) * W + x := by
        rw [hr, Nat.succ_mul]; omega
      rw [List.getElem?_append_right hge]
      have hidx : (y + 1) * W + x - r.length = y * W + x := by
        rw [hr, Nat.succ_mul]; omega
      rw [hidx, ih y (fun r hr => h r (by simp [hr]))]
      simp

/-- Standard bound: the row-major index of an in-range cell is below the
cell count. -/
lemma index_lt_of_lt {x y W H : Nat} (hx : x < W) (hy : y < H) :
    y * W + x < W * H := by
  have h1 : y * W + x < (y + 1) * W := by rw [Nat.succ_mul]; omega
  have h2 : (y + 1) * W ≤ H * W := Nat.mul_le_mul_right W hy
  rw [Nat.mul_comm W H]; omega

/-- Variant of `index_lt_of_lt` with the product in the other order. -/
lemma index_lt_of_lt' {x y W H : Nat} (hx : x < W) (hy : y < H) :
    y * W + x < H * W := by
  have h1 : y * W + x < (y + 1) * W := by rw [Nat.succ_mul]; omega
  have h2 : (y + 1) * W ≤ H * W := Nat.mul_le_mul_right W hy
  omega

namespace Buffer

/-- Under the invariant the rows pushed by the width-resize copy loop all
have the final width. -/
lemma width_rows_length (b : Buffer) (nw : Nat) (hge : b.max_position.x ≤ nw) :
    ∀ r ∈ (List.range b.max_position.y).map (fun y =>
      b.copy_row y ++ List.replicate (nw - b.max_position.x) Color.BG_COLOR),
      r.length = nw := by
  intro r hr
  rcases List.mem_map.mp hr with ⟨y, -, rfl⟩
  simp [Buffer.copy_row]
  omega

/-- Characterization of `new_width_buffer` under the invariant and a
non-shrinking new width: the call succeeds, the new extent and storage
length are as expected, and the cell at (x, y) with x < new_width is the
old cell when x is inside the old width, background when the cell was
appended by the padding loop, and absent when y is outside the height. -/
lemma new_width_buffer_spec (b : Buffer) (nw : Nat) (hwf : b.WF)
    (hge : b.max_position.x ≤ nw) :
    ∃ b2, b.new_width_buffer nw = some b2 ∧
      b2.max_position = ⟨nw, b.max_position.y⟩ ∧
      b2.data.length = nw * b.max_position.y ∧
      (∀ x y : Nat, x < nw →
        b2.data[y * nw + x]? =
          if x < b.max_position.x then b.data[y * b.max_position.x + x]?
          else if y < b.max_position.y then some Color.BG_COLOR
          else none) := by
  have hguard1 : ¬ (0 < b.max_position.y ∧ nw < b.max_position.x) := by omega
  have hguard2 : ¬ (b.data.length < b.max_position.x * b.max_position.y) := by
    rw [hwf]; omega
  rw [Buffer.new_width_buffer, if_neg hguard1, if_neg hguard2]
  have hrows := b.width_rows_length nw hge
  refine ⟨_, rfl, rfl, ?_, ?_⟩
  · rw [flatten_length_const _ nw hrows]
    simp only [List.length_map, List.length_range]
    rw [Nat.mul_comm]
  · intro x y hx
    rw [flatten_getElem?_const _ nw x y hrows hx]
    by_cases hyh : y < b.max_position.y
    · rw [List.getElem?_map, List.getElem?_range hyh]
      simp only [Option.map_some', Option.some_bind]
      by_cases hxw : x < b.max_position.x
      · have hlen : x < (b.copy_row y).length := by simp [Buffer.copy_row, hxw]
        rw [List.getElem?_append_left hlen, if_pos hxw]
        have hin : y * b.max_position.x + x < b.data.length := by
          rw [hwf]; exact index_lt_of_lt hxw hyh
        rw [Buffer.copy_row, List.getElem?_map, List.getElem?_range hxw]
        simp only [Option.map_some']
        rw [List.getElem?_eq_getElem hin, List.getD_eq_getElem _ _ hin]
      · have hlen : (b.copy_row y).length ≤ x := by
          simp [Buffer.copy_row]; omega
        rw [List.getElem?_append_right hlen, if_neg hxw, if_pos hyh]
        have : x - (b.copy_row y).length < nw - b.max_position.x := by
          simp [Buffer.copy_row]; omega
        rw [List.getElem?_replicate_of_lt this]
    · have hnone : ((List.range b.max_position.y).map (fun y =>
          b.copy_row y ++
            List.replicate (nw - b.max_position.x) Color.BG_COLOR))[y]? = none := by
        rw [List.getElem?_eq_none]
        simp; omega
      rw [hnone]
      simp only [Option.none_bind]
      by_cases hxw : x < b.max_position.x
      · rw [if_pos hxw]
        have : b.data.length ≤ y * b.max_position.x + x := by
          rw [hwf, Nat.mul_comm]
          have : b.max_position.y * b.max_position.x ≤ y * b.max_position.x :=
            Nat.mul_le_mul_right _ (by omega)
          omega
        rw [List.getElem?_eq_none this]
      · rw [if_neg hxw, if_neg hyh]

/-- Under the invariant the rows of the height-resize copy loop have the
buffer's width. -/
lemma height_rows_length (b : Buffer) :
    ∀ r ∈ (List.range b.max_position.y).map (fun y => b.copy_row y),
      r.length = b.max_position.x := by
  intro r hr
  rcases List.mem_map.mp hr with ⟨y, -, rfl⟩
  simp [Buffer.copy_row]

/-- Characterization of `new_height_buffer` under the invariant and a
non-shrinking new height: the call succeeds, the extent and storage length
are as expected, the first `old_height` rows keep their cells and the
appended rows are background. -/
lemma new_height_buffer_spec (b : Buffer) (nh : Nat) (hwf : b.WF)
    (hge : b.max_position.y ≤ nh) :
    ∃ b2, b.new_height_buffer nh = some b2 ∧
      b2.max_position = ⟨b.max_position.x, nh⟩ ∧
      b2.data.length = b.max_position.x * nh ∧
      (∀ x y : Nat, x < b.max_position.x →
        b2.data[y * b.max_position.x + x]? =
          if y < b.max_position.y then b.data[y * b.max_position.x + x]?
          else if y < nh then some Color.BG_COLOR
          else none) := by
  have hguard1 : ¬ (nh < b.max_position.y) := by omega
  have hguard2 : ¬ (b.data.length < b.max_position.x * b.max_position.y) := by
    rw [hwf]; omega
  rw [Buffer.new_height_buffer, if_neg hguard1, if_neg hguard2]
  have hrows := b.height_rows_length
  have hcopylen : ((List.range b.max_position.y).map
      (fun y => b.copy_row y)).flatten.length
      = b.max_position.y * b.max_position.x := by
    rw [flatten_length_const _ b.max_position.x hrows]
    simp
  refine ⟨_, rfl, rfl, ?_, ?_⟩
  · simp only [List.length_append, hcopylen, List.length_replicate]
    have hnh : b.max_position.y + (nh - b.max_position.y) = nh := by omega
    rw [← Nat.add_mul, hnh, Nat.mul_comm]
  · intro x y hx
    by_cases hyh : y < b.max_position.y
    · have hidx : y * b.max_position.x + x <
          ((List.range b.max_position.y).map
            (fun y => b.copy_row y)).flatten.length := by
        rw [hcopylen]
        exact index_lt_of_lt' hx hyh
      rw [List.getElem?_append_left hidx,
        flatten_getElem?_const _ b.max_position.x x y hrows hx,
        List.getElem?_map, List.getElem?_range hyh]
      simp only [Option.map_some', Option.some_bind]
      rw [if_pos hyh]
      have hin : y * b.max_position.x + x < b.data.length := by
        rw [hwf]; exact index_lt_of_lt hx hyh
      rw [Buffer.copy_row, List.getElem?_map, List.getElem?_range hx]
      simp only [Option.map_some']
      rw [List.getElem?_eq_getElem hin, List.getD_eq_getElem _ _ hin]
    · have hle : ((List.range b.max_position.y).map
          (fun y => b.copy_row y)).flatten.length ≤ y * b.max_position.x + x := by
        rw [hcopylen]
        have : b.max_position.y * b.max_position.x ≤ y * b.max_position.x :=
          Nat.mul_le_mul_right _ (by omega)
        omega
      rw [List.getElem?_append_right hle, if_neg hyh]
      by_cases hynh : y < nh
      · rw [if_pos hynh]
        have : y * b.max_position.x + x -
            ((List.range b.max_position.y).map
              (fun y => b.copy_row y)).flatten.length <
            (nh - b.max_position.y) * b.max_position.x := by
          rw [hcopylen]
          have h1 : y * b.max_position.x + x < nh * b.max_position.x :=
            index_lt_of_lt' hx hynh
          have h2 : b.max_position.y * b.max_position.x +
              (nh - b.max_position.y) * b.max_position.x
              = nh * b.max_position.x := by
            rw [← Nat.add_mul]
            congr 1
            omega
          omega
        rw [List.getElem?_replicate_of_lt this]
      · rw [if_neg hynh, List.getElem?_eq_none]
        simp only [List.length_replicate]
        have h1 : nh * b.max_position.x ≤ y * b.max_position.x :=
          Nat.mul_le_mul_right _ (by omega)
        have h2 : b.max_position.y * b.max_position.x +
            (nh - b.max_position.y) * b.max_position.x
            = nh * b.max_position.x := by
          rw [← Nat.add_mul]
          congr 1
          omega
        omega

/-- Unfolding of `get_color` with the index written out. -/
lemma get_color_eq (b : Buffer) (p : Position) :
    b.get_color p =
      match b.data[p.y * b.max_position.x + p.x]? with
      | some c => .ok c
      | none => .error (.outOfRange p.x p.y) := rfl

/-! Claim theorems. -/

/-- Concrete buffer of extent 2 by 3 used to refute C1 as stated. -/
def bufC1 : Buffer := ⟨⟨2, 3⟩, List.replicate 6 Color.BG_COLOR⟩

/-- C1 counterexample: on the 2 by 3 buffer reached from `Buffer::default()`
by `new_size_buffer(2, 3)`, the position (5, 0) has x ≥ width, yet
`get_color` returns a color and `set_color` succeeds, because the linear
index 0 * 2 + 5 = 5 is still below the storage length 6.  So it is not the
case that every position with x ≥ width or y ≥ height makes both accessors
fail. -/
theorem C1_counterexample :
    Buffer.default.new_size_buffer 2 3 = some bufC1 ∧
    bufC1.WF ∧
    bufC1.max_position.x ≤ 5 ∧
    bufC1.get_color ⟨5, 0⟩ = .ok Color.BG_COLOR ∧
    bufC1.set_color ⟨5, 0⟩ Color.BG_COLOR = .ok bufC1 := by
  refine ⟨rfl, by decide, by decide, rfl, ?_⟩
  show Except.ok _ = _
  congr 1

/-- C1 (amended): under the length invariant, `get_color` and `set_color`
fail with the out-of-range error carrying (x, y) exactly when the row-major
index `y * width + x` reaches the storage length.  Every position with
y ≥ height fails this way, but a position with x ≥ width may still succeed
when its index is below `width * height` (see the counterexample).  The
hypothesis `index < 2^64` records that the usize index arithmetic of the
source does not overflow. -/
theorem C1_amended (b : Buffer) (p : Position) (hwf : b.WF)
    (hov : p.y * b.max_position.x + p.x < 2 ^ 64) :
    (b.get_color p = .error (.outOfRange p.x p.y) ↔
      b.data.length ≤ b.get_index p) ∧
    (∀ c, b.set_color p c = .error (.outOfRange p.x p.y) ↔
      b.data.length ≤ b.get_index p) ∧
    (b.max_position.y ≤ p.y →
      b.get_color p = .error (.outOfRange p.x p.y)) := by
  have hmain : (b.get_color p = .error (.outOfRange p.x p.y) ↔
      b.data.length ≤ b.get_index p) ∧
      (∀ c, b.set_color p c = .error (.outOfRange p.x p.y) ↔
        b.data.length ≤ b.get_index p) := by
    by_cases hlt : b.get_index p < b.data.length
    · constructor
      · rw [Buffer.get_color, List.getElem?_eq_getElem hlt]
        simp; omega
      · intro c
        rw [Buffer.set_color]
        simp only [if_pos hlt]
        simp; omega
    · have hle : b.data.length ≤ b.get_index p := by omega
      constructor
      · rw [Buffer.get_color, List.getElem?_eq_none hle]
        simp [hle]
      · intro c
        rw [Buffer.set_color]
        simp only [if_neg hlt]
        simp [hle]
  refine ⟨hmain.1, hmain.2, fun hy => hmain.1.mpr ?_⟩
  rw [hwf, Buffer.get_index]
  have : b.max_position.y * b.max_position.x ≤ p.y * b.max_position.x :=
    Nat.mul_le_mul_right _ hy
  rw [Nat.mul_comm b.max_position.x b.max_position.y]
  omega

/-- C1 amended, evaluated: on a 1 by 1 buffer the position (0, 2) with
y ≥ height is rejected by `get_color` with the out-of-range error. -/
theorem C1_amended_witness :
    Buffer.WF ⟨⟨1, 1⟩, [Color.BG_COLOR]⟩ ∧
    (⟨⟨1, 1⟩, [Color.BG_COLOR]⟩ : Buffer).get_color ⟨0, 2⟩ =
      .error (.outOfRange 0 2) :=
  ⟨by decide,
    (C1_amended ⟨⟨1, 1⟩, [Color.BG_COLOR]⟩ ⟨0, 2⟩ (by decide)
      (by norm_num)).2.2 (by decide)⟩

/-- C2: for a buffer satisfying the length invariant and a position strictly
inside its extent, `set_color` succeeds and `get_color` at the same position
on the resulting buffer returns the written color. -/
theorem C2_set_then_get (b : Buffer) (p : Position) (c : Color) (hwf : b.WF)
    (hx : p.x < b.max_position.x) (hy : p.y < b.max_position.y) :
    ∃ b2, b.set_color p c = .ok b2 ∧ b2.get_color p = .ok c := by
  have hidx : b.get_index p < b.data.length := by
    rw [hwf, Buffer.get_index]
    exact index_lt_of_lt hx hy
  refine ⟨{ b with data := b.data.set (b.get_index p) c }, ?_, ?_⟩
  · rw [Buffer.set_color]
    simp only [if_pos hidx]
  · rw [Buffer.get_color]
    have hsame : Buffer.get_index { b with data := b.data.set (b.get_index p) c } p
        = b.get_index p := rfl
    rw [hsame, List.getElem?_set_self hidx]

/-- C2 evaluated on a 1 by 1 buffer with the color 5. -/
theorem C2_witness :
    ∃ b2, (⟨⟨1, 1⟩, [Color.BG_COLOR]⟩ : Buffer).set_color ⟨0, 0⟩ ⟨5⟩ = .ok b2 ∧
      b2.get_color ⟨0, 0⟩ = .ok ⟨5⟩ :=
  C2_set_then_get ⟨⟨1, 1⟩, [Color.BG_COLOR]⟩ ⟨0, 0⟩ ⟨5⟩
    (by decide) (by decide) (by decide)

/-- Concrete buffer of extent 1 by 2 used to refute C3 as stated. -/
def bufC3 : Buffer := ⟨⟨1, 2⟩, [⟨3⟩, ⟨7⟩]⟩

/-- C3 counterexample: on a 1 by 2 buffer, widening to width 2 and then
calling `new_width_buffer` with the original width 1 yields no buffer at
all — the narrowing call evaluates the usize pad count `1 - 2`, which
underflows and aborts — so the round trip does not reproduce the original
content. -/
theorem C3_counterexample :
    bufC3.WF ∧ bufC3.max_position.x < 2 ∧
    (bufC3.new_width_buffer 2).bind (fun bb => bb.new_width_buffer 1)
      = none := by decide

/-- C3 (amended): for a buffer of positive height, widening to w2 > w
succeeds and preserves every previously in-range cell, but the subsequent
narrowing back to the original width aborts on the underflowing usize pad
count `w - w2`, so the widen-then-narrow round trip yields no buffer.
(With height 0 the pad loop never runs and both steps trivially succeed on
an empty grid.) -/
theorem C3_amended (b : Buffer) (w2 : Nat) (hwf : b.WF)
    (hlt : b.max_position.x < w2) (hpos : 0 < b.max_position.y) :
    ∃ bw, b.new_width_buffer w2 = some bw ∧
      (∀ p : Position, p.x < b.max_position.x → p.y < b.max_position.y →
        bw.get_color p = b.get_color p) ∧
      bw.new_width_buffer b.max_position.x = none := by
  obtain ⟨bw, hbw, hext, hlen, hcell⟩ :=
    b.new_width_buffer_spec w2 hwf (Nat.le_of_lt hlt)
  refine ⟨bw, hbw, ?_, ?_⟩
  · intro p hx hy
    rw [get_color_eq, get_color_eq]
    have hdata : bw.data[p.y * bw.max_position.x + p.x]?
        = b.data[p.y * b.max_position.x + p.x]? := by
      rw [hext]
      have := hcell p.x p.y (Nat.lt_trans hx hlt)
      rw [this, if_pos hx]
    rw [hdata]
  · rw [Buffer.new_width_buffer, if_pos]
    rw [hext]
    exact ⟨hpos, hlt⟩

/-- C3 amended, evaluated on the 1 by 2 buffer with widening width 2. -/
theorem C3_amended_witness :
    ∃ bw, bufC3.new_width_buffer 2 = some bw ∧
      (∀ p : Position, p.x < bufC3.max_position.x →
        p.y < bufC3.max_position.y → bw.get_color p = bufC3.get_color p) ∧
      bw.new_width_buffer bufC3.max_position.x = none :=
  C3_amended bufC3 2 (by decide) (by decide) (by decide)

/-- C5: growing the height by k keeps the width, sets the height to h + k,
keeps every old row cell-for-cell, and fills the k appended rows entirely
with the background color. -/
theorem C5_height_grow (b : Buffer) (k : Nat) (hwf : b.WF) :
    ∃ b2, b.new_height_buffer (b.max_position.y + k) = some b2 ∧
      b2.max_position.x = b.max_position.x ∧
      b2.max_position.y = b.max_position.y + k ∧
      (∀ p : Position, p.x < b.max_position.x → p.y < b.max_position.y →
        b2.get_color p = b.get_color p) ∧
      (∀ p : Position, p.x < b.max_position.x →
        b.max_position.y ≤ p.y → p.y < b.max_position.y + k →
        b2.get_color p = .ok Color.BG_COLOR) := by
  obtain ⟨b2, hb2, hext, hlen, hcell⟩ :=
    b.new_height_buffer_spec (b.max_position.y + k) hwf (by omega)
  refine ⟨b2, hb2, by rw [hext], by rw [hext], ?_, ?_⟩
  · intro p hx hy
    rw [get_color_eq, get_color_eq]
    have hdata : b2.data[p.y * b2.max_position.x + p.x]?
        = b.data[p.y * b.max_position.x + p.x]? := by
      rw [hext]
      have := hcell p.x p.y hx
      rw [this, if_pos hy]
    rw [hdata]
  · intro p hx hyl hyu
    rw [get_color_eq]
    have hdata : b2.data[p.y * b2.max_position.x + p.x]?
        = some Color.BG_COLOR := by
      rw [hext]
      have := hcell p.x p.y hx
      rw [this, if_neg (by omega), if_pos hyu]
    rw [hdata]

/-- C5 evaluated: a 1 by 1 buffer holding color 9 grown to height 2. -/
theorem C5_witness :
    ∃ b2, (⟨⟨1, 1⟩, [⟨9⟩]⟩ : Buffer).new_height_buffer (1 + 1) = some b2 ∧
      b2.max_position.x = 1 ∧ b2.max_position.y = 1 + 1 ∧
      (∀ p : Position, p.x < 1 → p.y < 1 →
        b2.get_color p = (⟨⟨1, 1⟩, [⟨9⟩]⟩ : Buffer).get_color p) ∧
      (∀ p : Position, p.x < 1 → 1 ≤ p.y → p.y < 1 + 1 →
        b2.get_color p = .ok Color.BG_COLOR) :=
  C5_height_grow ⟨⟨1, 1⟩, [⟨9⟩]⟩ 1 (by decide)

/-- C7: `new_size_buffer` is definitionally the width resize followed by the
height resize, and consequently under growth the rows appended by the
height step are sized to the new width: every cell with x < new_width in an
appended row reads back as the background color. -/
theorem C7_size_comp (b : Buffer) (nw nh : Nat) (hwf : b.WF)
    (hw : b.max_position.x ≤ nw) (hh : b.max_position.y ≤ nh) :
    b.new_size_buffer nw nh
      = (b.new_width_buffer nw).bind (fun bb => bb.new_height_buffer nh) ∧
    ∃ b2, b.new_size_buffer nw nh = some b2 ∧
      b2.max_position = ⟨nw, nh⟩ ∧
      (∀ p : Position, p.x < nw → b.max_position.y ≤ p.y → p.y < nh →
        b2.get_color p = .ok Color.BG_COLOR) := by
  refine ⟨rfl, ?_⟩
  obtain ⟨bw, hbw, hwext, hwlen, hwcell⟩ := b.new_width_buffer_spec nw hwf hw
  have hbwwf : bw.WF := by
    rw [Buffer.WF, hwext, hwlen]
  obtain ⟨b2, hb2, hext2, hlen2, hcell2⟩ :=
    bw.new_height_buffer_spec nh hbwwf (by rw [hwext]; exact hh)
  refine ⟨b2, ?_, ?_, ?_⟩
  · rw [Buffer.new_size_buffer, hbw, Option.some_bind, hb2]
  · rw [hext2, hwext]
  · intro p hx hyl hyu
    rw [get_color_eq]
    have hbwx : bw.max_position.x = nw := by rw [hwext]
    have hbwy : bw.max_position.y = b.max_position.y := by rw [hwext]
    have hstep := hcell2 p.x p.y (by rw [hbwx]; exact hx)
    rw [hbwx, hbwy] at hstep
    have hdata : b2.data[p.y * b2.max_position.x + p.x]?
        = some Color.BG_COLOR := by
      have hb2x : b2.max_position.x = nw := by rw [hext2, hbwx]
      rw [hb2x, hstep, if_neg (by omega), if_pos hyu]
    rw [hdata]

/-- C7 evaluated: a 1 by 1 buffer resized to 2 by 2. -/
theorem C7_witness :
    (⟨⟨1, 1⟩, [⟨9⟩]⟩ : Buffer).new_size_buffer 2 2
      = ((⟨⟨1, 1⟩, [⟨9⟩]⟩ : Buffer).new_width_buffer 2).bind
          (fun bb => bb.new_height_buffer 2) ∧
    ∃ b2, (⟨⟨1, 1⟩, [⟨9⟩]⟩ : Buffer).new_size_buffer 2 2 = some b2 ∧
      b2.max_position = ⟨2, 2⟩ ∧
      (∀ p : Position, p.x < 2 → 1 ≤ p.y → p.y < 2 →
        b2.get_color p = .ok Color.BG_COLOR) :=
  C7_size_comp ⟨⟨1, 1⟩, [⟨9⟩]⟩ 2 2 (by decide) (by decide) (by decide)

/-- C8: the length invariant `data.length = width * height` holds for the
default buffer, is preserved by a successful `set_color` (which also keeps
the extent), and holds at the new extent after each of the three resize
operations applied with non-shrinking arguments. -/
theorem C8_invariant (b : Buffer) (hwf : b.WF) :
    Buffer.default.WF ∧
    (∀ p c b2, b.set_color p c = .ok b2 →
      b2.WF ∧ b2.max_position = b.max_position ∧
      b2.data.length = b.data.length) ∧
    (∀ nw, b.max_position.x ≤ nw →
      ∃ b2, b.new_width_buffer nw = some b2 ∧
        b2.WF ∧ b2.max_position = ⟨nw, b.max_position.y⟩) ∧
    (∀ nh, b.max_position.y ≤ nh →
      ∃ b2, b.new_height_buffer nh = some b2 ∧
        b2.WF ∧ b2.max_position = ⟨b.max_position.x, nh⟩) ∧
    (∀ nw nh, b.max_position.x ≤ nw → b.max_position.y ≤ nh →
      ∃ b2, b.new_size_buffer nw nh = some b2 ∧
        b2.WF ∧ b2.max_position = ⟨nw, nh⟩) := by
  refine ⟨by decide, ?_, ?_, ?_, ?_⟩
  · intro p c b2 h
    rw [Buffer.set_color] at h
    split at h
    · cases h
      refine ⟨?_, rfl, by simp⟩
      rw [Buffer.WF] at hwf ⊢
      simpa using hwf
    · cases h
  · intro nw hge
    obtain ⟨b2, hb2, hext, hlen, -⟩ := b.new_width_buffer_spec nw hwf hge
    exact ⟨b2, hb2, by rw [Buffer.WF, hext, hlen], hext⟩
  · intro nh hge
    obtain ⟨b2, hb2, hext, hlen, -⟩ := b.new_height_buffer_spec nh hwf hge
    exact ⟨b2, hb2, by rw [Buffer.WF, hext, hlen], hext⟩
  · intro nw nh hgw hgh
    obtain ⟨bw, hbw, hwext, hwlen, -⟩ := b.new_width_buffer_spec nw hwf hgw
    have hbwwf : bw.WF := by rw [Buffer.WF, hwext, hwlen]
    obtain ⟨b2, hb2, hext2, hlen2, -⟩ :=
      bw.new_height_buffer_spec nh hbwwf (by rw [hwext]; exact hgh)
    refine ⟨b2, ?_, ?_, ?_⟩
    · rw [Buffer.new_size_buffer, hbw, Option.some_bind, hb2]
    · rw [Buffer.WF, hext2, hlen2, hwext]
    · rw [hext2, hwext]

/-- C8 evaluated on a 1 by 1 buffer. -/
theorem C8_witness :
    Buffer.default.WF ∧
    (∀ p c b2, (⟨⟨1, 1⟩, [⟨9⟩]⟩ : Buffer).set_color p c = .ok b2 →
      b2.WF ∧ b2.max_position = (⟨⟨1, 1⟩, [⟨9⟩]⟩ : Buffer).max_position ∧
      b2.data.length = (⟨⟨1, 1⟩, [⟨9⟩]⟩ : Buffer).data.length) ∧
    (∀ nw, 1 ≤ nw →
      ∃ b2, (⟨⟨1, 1⟩, [⟨9⟩]⟩ : Buffer).new_width_buffer nw = some b2 ∧
        b2.WF ∧ b2.max_position = ⟨nw, 1⟩) ∧
    (∀ nh, 1 ≤ nh →
      ∃ b2, (⟨⟨1, 1⟩, [⟨9⟩]⟩ : Buffer).new_height_buffer nh = some b2 ∧
        b2.WF ∧ b2.max_position = ⟨1, nh⟩) ∧
    (∀ nw nh, 1 ≤ nw → 1 ≤ nh →
      ∃ b2, (⟨⟨1, 1⟩, [⟨9⟩]⟩ : Buffer).new_size_buffer nw nh = some b2 ∧
        b2.WF ∧ b2.max_position = ⟨nw, nh⟩) :=
  C8_invariant ⟨⟨1, 1⟩, [⟨9⟩]⟩ (by decide)

end Buffer

/-- C4: with the cursor in Draw mode and a writable position, `draw` writes
the mode's color into the buffer and a subsequent `get_color` at the cursor
position returns it; with the cursor in Normal, Selection or Visual mode,
`draw` fails with the mode error carrying the current mode, whatever the
buffer's contents or extent. -/
theorem C4_draw (cur : Cursor) (b : Buffer) :
    (∀ c brush, cur.mode = Mode.Draw c brush →
      b.get_index cur.position < b.data.length →
      ∃ b2, cur.draw b = .ok b2 ∧ b2.get_color cur.position = .ok c) ∧
    (cur.mode = Mode.Normal ∨ cur.mode = Mode.Selection ∨
        cur.mode = Mode.Visual →
      cur.draw b = .error (.notDrawMode cur.mode)) := by
  constructor
  · intro c brush hmode hidx
    refine ⟨{ b with data := b.data.set (b.get_index cur.position) c },
      ?_, ?_⟩
    · unfold Cursor.draw
      rw [hmode]
      show b.set_color cur.position c = _
      rw [Buffer.set_color]
      simp only [if_pos hidx]
    · rw [Buffer.get_color]
      have hsame :
          Buffer.get_index
            { b with data := b.data.set (b.get_index cur.position) c }
            cur.position = b.get_index cur.position := rfl
      rw [hsame, List.getElem?_set_self hidx]
  · intro h
    rcases h with h | h | h <;> (unfold Cursor.draw; rw [h])

/-- C4 evaluated: a Draw-mode cursor at (0, 0) paints color 4 into a 1 by 1
buffer; a Normal-mode cursor is rejected with the mode error. -/
theorem C4_witness :
    (∃ b2,
      Cursor.draw ⟨⟨0, 0⟩, Mode.Draw ⟨4⟩ none⟩ ⟨⟨1, 1⟩, [Color.BG_COLOR]⟩
        = .ok b2 ∧ b2.get_color ⟨0, 0⟩ = .ok ⟨4⟩) ∧
    Cursor.draw ⟨⟨0, 0⟩, Mode.Normal⟩ ⟨⟨1, 1⟩, [Color.BG_COLOR]⟩
      = .error (.notDrawMode Mode.Normal) :=
  ⟨(C4_draw ⟨⟨0, 0⟩, Mode.Draw ⟨4⟩ none⟩ ⟨⟨1, 1⟩, [Color.BG_COLOR]⟩).1
      ⟨4⟩ none rfl (by decide),
    (C4_draw ⟨⟨0, 0⟩, Mode.Normal⟩ ⟨⟨1, 1⟩, [Color.BG_COLOR]⟩).2
      (Or.inl rfl)⟩

/-- Option-valued `mapM` succeeds pointwise: if `f` returns `some (g a)` on
every element then `l.mapM f = some (l.map g)`. -/
lemma mapM_option_eq_map {α β : Type} (l : List α) (f : α → Option β)
    (g : α → β) (h : ∀ a ∈ l, f a = some (g a)) :
    l.mapM f = some (l.map g) := by
  induction l with
  | nil => rfl
  | cons a l ih =>
    rw [List.mapM_cons, h a (by simp), ih (fun a ha => h a (by simp [ha]))]
    rfl

/-- C6: when the length invariant holds and every stored color index has a
palette entry, `to_csv` succeeds and its output is exactly one record per
cell, scanned row-major (y outer, x inner), each record being
`x,y,color_name` followed by the record terminator. -/
theorem C6_to_csv (b : Buffer) (colors : Colors) (hwf : b.WF)
    (hc : ∀ c ∈ b.data, c.val.val < Color.MAX) :
    b.to_csv colors
      = some (String.join ((List.range b.max_position.y).map (fun y =>
          String.join ((List.range b.max_position.x).map (fun x =>
            write_record [toString x, toString y,
              colors.names.getD
                (b.data.getD (y * b.max_position.x + x)
                  Color.BG_COLOR).val.val ""]))))) := by
  rw [Buffer.to_csv]
  have houter : (List.range b.max_position.y).mapM (fun y =>
      (List.range b.max_position.x).mapM (fun x =>
        (b.data[y * b.max_position.x + x]?).bind (fun color =>
          (colors.names[color.val.val]?).map (fun color_name =>
            write_record [toString x, toString y, color_name]))))
      = some ((List.range b.max_position.y).map (fun y =>
          (List.range b.max_position.x).map (fun x =>
            write_record [toString x, toString y,
              colors.names.getD
                (b.data.getD (y * b.max_position.x + x)
                  Color.BG_COLOR).val.val ""]))) := by
    apply mapM_option_eq_map
    intro y hy
    apply mapM_option_eq_map
    intro x hx
    have hyy := List.mem_range.mp hy
    have hxx := List.mem_range.mp hx
    have hidx : y * b.max_position.x + x < b.data.length := by
      rw [hwf]; exact index_lt_of_lt hxx hyy
    have hcell : b.data[y * b.max_position.x + x]?
        = some (b.data.getD (y * b.max_position.x + x) Color.BG_COLOR) := by
      rw [List.getElem?_eq_getElem hidx, List.getD_eq_getElem _ _ hidx]
    rw [hcell, Option.some_bind]
    have hmem : b.data.getD (y * b.max_position.x + x) Color.BG_COLOR
        ∈ b.data := by
      rw [List.getD_eq_getElem _ _ hidx]
      exact List.getElem_mem hidx
    have hlt : (b.data.getD (y * b.max_position.x + x)
        Color.BG_COLOR).val.val < colors.names.length := by
      rw [colors.hlen]
      exact hc _ hmem
    rw [List.getElem?_eq_getElem hlt, List.getD_eq_getElem _ _ hlt,
      Option.map_some']
  rw [houter, Option.map_some', List.map_map]
  rfl

/-- Palette sending index 0 to black and index 1 to white, all other
entries empty. -/
def palBW : Colors :=
  ⟨"black" :: "white" :: List.replicate 253 "", by
    rw [List.length_cons, List.length_cons, List.length_replicate]
    rfl⟩

/-- The 2 by 2 buffer of the specification's CSV example. -/
def buf2x2 : Buffer := ⟨⟨2, 2⟩, [⟨0⟩, ⟨1⟩, ⟨1⟩, ⟨0⟩]⟩

set_option maxRecDepth 8192 in
/-- C6 evaluated on the specification's 2 by 2 example: the export is the
four records 0,0,black / 1,0,white / 0,1,white / 1,1,black in that order. -/
theorem C6_witness :
    buf2x2.to_csv palBW
      = some "0,0,black\n1,0,white\n0,1,white\n1,1,black\n" := by
  rw [C6_to_csv buf2x2 palBW (by decide) (by decide)]
  rfl

/-- Option-valued `mapM` fails whenever `f` fails on some element. -/
lemma mapM_option_eq_none {α β : Type} (l : List α) (f : α → Option β)
    (a : α) (ha : a ∈ l) (hf : f a = none) : l.mapM f = none := by
  induction l with
  | nil => cases ha
  | cons b l ih =>
    rw [List.mapM_cons]
    rcases List.mem_cons.mp ha with rfl | hmem
    · rw [hf]
      rfl
    · cases hfb : f b with
      | none => rfl
      | some v =>
        show (l.mapM f) >>= (fun xs => pure (v :: xs)) = none
        rw [ih hmem]
        rfl

/-- Buffer holding the single color index 255. -/
def buf255 : Buffer := ⟨⟨1, 1⟩, [⟨255⟩]⟩

/-- C9: the source does not return a serialization error when a stored
color index has no palette entry — the palette lookup `colors.0[idx]`
indexes past the end of the 255-entry array and the program aborts, so no
error value reaches the caller.  Concretely, exporting a buffer holding the
in-range color value 255 aborts under every possible palette. -/
theorem C9_no_serialization_error (colors : Colors) :
    buf255.to_csv colors = none := by
  have hnone : colors.names[((⟨255⟩ : Color)).val.val]? = none :=
    List.getElem?_eq_none (by rw [colors.hlen]; decide)
  have hcell0 : (buf255.data[0 * buf255.max_position.x + 0]?).bind
      (fun color => (colors.names[color.val.val]?).map (fun color_name =>
        write_record [toString 0, toString 0, color_name])) = none := by
    have h0 : buf255.data[0 * buf255.max_position.x + 0]? = some ⟨255⟩ := rfl
    rw [h0, Option.some_bind, hnone]
    rfl
  have hrow0 : (List.range buf255.max_position.x).mapM (fun x =>
      (buf255.data[0 * buf255.max_position.x + x]?).bind
        (fun color => (colors.names[color.val.val]?).map (fun color_name =>
          write_record [toString x, toString 0, color_name]))) = none :=
    mapM_option_eq_none _ _ 0 (by decide) hcell0
  have houter : (List.range buf255.max_position.y).mapM (fun y =>
      (List.range buf255.max_position.x).mapM (fun x =>
        (buf255.data[y * buf255.max_position.x + x]?).bind
          (fun color => (colors.names[color.val.val]?).map (fun color_name =>
            write_record [toString x, toString y, color_name])))) = none :=
    mapM_option_eq_none _ _ 0 (by decide) hrow0
  rw [Buffer.to_csv, houter]
  rfl

/-- C9, the abort evaluated at one concrete palette. -/
theorem C9_witness : buf255.to_csv palBW = none :=
  C9_no_serialization_error palBW

/-- C10: the palette array has exactly `Color::MAX = 255` name entries, an
index has an entry exactly when it is below 255, and the constructible
color value 255 has no entry in any palette, so its lookup during `to_csv`
is out of bounds — exporting a buffer that stores color 255 yields no
result for any palette. -/
theorem C10_palette_gap (colors : Colors) :
    colors.names.length = Color.MAX ∧
    (∀ i : Nat, (colors.names[i]?).isSome ↔ i < Color.MAX) ∧
    colors.names[(⟨255⟩ : Color).val.val]? = none ∧
    buf255.to_csv colors = none := by
  refine ⟨colors.hlen, ?_, ?_, C9_no_serialization_error colors⟩
  · intro i
    constructor
    · intro h
      by_contra hge
      rw [List.getElem?_eq_none (by rw [colors.hlen]; omega)] at h
      simp at h
    · intro h
      rw [List.getElem?_eq_getElem (by rw [colors.hlen]; exact h)]
      rfl
  · exact List.getElem?_eq_none (by rw [colors.hlen]; decide)

/-- C10 evaluated at a concrete palette. -/
theorem C10_witness :
    palBW.names.length = Color.MAX ∧
    palBW.names[(⟨255⟩ : Color).val.val]? = none :=
  ⟨(C10_palette_gap palBW).1, (C10_palette_gap palBW).2.2.1⟩

end TermImage
